import Mathlib

/-!
Shallow embedding of `src/slot_game_utils/core.py` (slot-game payline
utilities) and verification of the specification's claims about it.

Modelling conventions:
* Python `int` symbols are `Int`; payout amounts (`float` in the source,
  used only for comparison and pass-through) are `ℚ`.
* Python dicts become association lists looked up with `List.lookup`.
* A Python list access that can raise `IndexError` is modelled with
  `Option`: `check_win` returns `none` exactly when the Python function
  would raise past its boundary.
* Strings are processed through their character lists; `str.split('-')`
  is `splitOnDash`, Python `int(s)` is `pyInt` (modelled for optional
  sign plus decimal digits; Python's additional acceptance of
  surrounding whitespace and underscore digit separators is not used by
  any code path or claim here), and Python `str(i)` for an `int` is
  `intChars`.
-/

/-- Python `str.split('-')` on the character list of a string: splits on
every `'-'`, keeping empty segments, so `"" ↦ [[]]` and `"-" ↦ [[], []]`,
exactly like Python's `split` with an explicit separator. -/
def splitOnDash : List Char → List (List Char)
  | [] => [[]]
  | c :: cs =>
    if c = '-' then [] :: splitOnDash cs
    else
      match splitOnDash cs with
      | [] => [[c]]
      | p :: ps => (c :: p) :: ps

/-- Value of a decimal digit character, `none` for a non-digit. -/
def digitVal (c : Char) : Option Nat :=
  if '0' ≤ c ∧ c ≤ '9' then some (c.toNat - 48) else none

/-- Accumulating decimal parse of a digit string. -/
def parseDigitsAux (acc : Nat) : List Char → Option Nat
  | [] => some acc
  | c :: cs =>
    match digitVal c with
    | some d => parseDigitsAux (acc * 10 + d) cs
    | none => none

/-- Parse a non-empty all-digit string as a natural number. -/
def parseDigits (cs : List Char) : Option Nat :=
  if cs.isEmpty then none else parseDigitsAux 0 cs

/-- Python `int(s)`: optional sign followed by decimal digits. -/
def pyInt (cs : List Char) : Option Int :=
  match cs with
  | [] => none
  | c :: rest =>
    if c = '-' then (parseDigits rest).map (fun n => -(n : Int))
    else if c = '+' then (parseDigits rest).map (fun n => (n : Int))
    else (parseDigits (c :: rest)).map (fun n => (n : Int))

/-- Base-10 digit characters of `n`, most-significant first, produced
with `fuel` recursion steps (any `fuel ≥ n` is enough); `[]` for 0. -/
def natCharsAux : Nat → Nat → List Char
  | 0, _ => []
  | _ + 1, 0 => []
  | fuel + 1, n + 1 =>
    natCharsAux fuel ((n + 1) / 10) ++ [Char.ofNat ((n + 1) % 10 + 48)]

/-- Python `str(n)` for a natural number: most-significant digit first. -/
def natChars (n : Nat) : List Char :=
  if n = 0 then ['0'] else natCharsAux n n

/-- Python `str(i)` for an `int`: a minus sign before the digits when
negative. -/
def intChars (i : Int) : List Char :=
  if i < 0 then '-' :: natChars i.natAbs else natChars i.natAbs

/-- The winline record `[winline_id, combination_count, symbol_id,
win_amount]` built by `extract_winline_spinwin_data` on a successful
parse. -/
structure WinRecord where
  winlineId : Int
  matchLength : Int
  symbol : Int
  amount : ℚ
  deriving Repr, DecidableEq

/-- `extract_winline_spinwin_data(winline_id, code, win_amount)` from
`core.py`: splits `code` on `'-'`; with at least 4 parts and integer
parts 1 and 3 it returns the populated winline record, otherwise (the
caught `ValueError`/`IndexError` path) an empty record; `spinWins` is
always `[win_amount]`. -/
def extract_winline_spinwin_data (winline_id : Int) (code : String)
    (win_amount : ℚ) : Option WinRecord × List ℚ :=
  let code_parts := splitOnDash code.data
  let winlines : Option WinRecord :=
    if code_parts.length < 4 then none
    else
      match pyInt (code_parts.getD 1 []), pyInt (code_parts.getD 3 []) with
      | some combination_count, some symbol_id =>
          some ⟨winline_id, combination_count, symbol_id, win_amount⟩
      | _, _ => none
  (winlines, [win_amount])

/-- The game ticket assembled by `extract_game_detail`. -/
structure GameTicket (α : Type) where
  win : ℚ
  triggerType : String
  reels : List α
  spinWins : List ℚ
  deriving Repr, DecidableEq

/-- `extract_game_detail(total_win, trigger_type, matrix, winlines,
spin_wins)` from `core.py`: flattens the 2-D matrix row-major
(`chain.from_iterable`) and packages the ticket; `winlines` is accepted
but unused. -/
def extract_game_detail {α β : Type} (total_win : ℚ) (trigger_type : String)
    (matrix : List (List α)) (winlines : β) (spin_wins : List ℚ) :
    GameTicket α :=
  let _ := winlines
  let flattened_matrix := matrix.flatten
  { win := total_win
    triggerType := trigger_type
    reels := flattened_matrix
    spinWins := spin_wins }

/-- `check_wild_symbols(line, wild_ids)` from `core.py`: the boolean
wild mask, one entry per position. -/
def check_wild_symbols (line : List Int) (wild_ids : List Int) : List Bool :=
  line.map (fun symbol => wild_ids.contains symbol)

/-- `check_wild_presence(line, wild_ids)` from `core.py`:
`int(np.any(np.isin(line, wild_ids)))`, i.e. 1 when some position holds
a wild id and 0 otherwise. -/
def check_wild_presence (line : List Int) (wild_ids : List Int) : Nat :=
  if line.any (fun symbol => wild_ids.contains symbol) then 1 else 0

/-- Pay table: `Dict[int, Dict[int, float]]` mapping match length, then
symbol, to payout. -/
abbrev PayTable := List (Nat × List (Int × ℚ))

/-- Nested pay-table lookup, `none` when either key is absent. -/
def payLookup (pay_table : PayTable) (len : Nat) (symbol : Int) : Option ℚ :=
  (pay_table.lookup len).bind (fun m => m.lookup symbol)

/-- The source's `try: pay_table[l][s] except: 0` pattern: nested lookup
defaulting to 0. -/
def payLookupD (pay_table : PayTable) (len : Nat) (symbol : Int) : ℚ :=
  (payLookup pay_table len symbol).getD 0

/-- The first loop of `check_win`: scan indices `0 ≤ i < n` for the
first `i` with `wilds[i]` false, returning `some n` when none is found;
`none` models the `IndexError` raised when the loop reads past the end
of `wilds`. -/
def firstNonWild : List Bool → Nat → Option Nat
  | _, 0 => some 0
  | [], _ + 1 => none
  | b :: bs, n + 1 =>
    if b then (firstNonWild bs n).map (· + 1) else some 0

/-- The second loop of `check_win`, started on the suffixes just after
the anchor position: count how many further positions are wild or equal
to the anchor, stopping at the first that is neither; `none` models the
`IndexError` raised when `wilds` runs out before `line`. -/
def seqExt (symbol_to_match : Int) : List Int → List Bool → Option Nat
  | [], _ => some 0
  | _ :: _, [] => none
  | a :: as, w :: ws =>
    if w || a == symbol_to_match then (seqExt symbol_to_match as ws).map (· + 1)
    else some 0

/-- The code string `f"B-{length}-{wild_flag}-{symbol}"`. -/
def mkCode (len : Nat) (flag : Nat) (symbol : Int) : String :=
  ⟨'B' :: '-' :: (natChars len ++ '-' :: (natChars flag ++ '-' :: intChars symbol))⟩

/-- `check_win(line, line_id, wilds, wild_ids, pay_table)` from
`core.py`. Returns `some (win, code, winlines, spinWins)`, or `none`
when the Python function raises `IndexError` (empty line in the all-wild
branch, or a wild mask shorter than the line). -/
def check_win (line : List Int) (line_id : Int) (wilds : List Bool)
    (wild_ids : List Int) (pay_table : PayTable) :
    Option (ℚ × String × Option WinRecord × List ℚ) :=
  let line_len := line.length
  match firstNonWild wilds line_len with
  | none => none
  | some first_non_wild =>
    if first_non_wild = line_len then
      match line with
      | [] => none
      | symbol_to_match :: _ =>
        let win := payLookupD pay_table line_len symbol_to_match
        let code_01 := mkCode line_len 1 symbol_to_match
        let ws := extract_winline_spinwin_data line_id code_01 win
        some (win, code_01, ws.1, ws.2)
    else
      let symbol_to_match := line.getD first_non_wild 0
      match seqExt symbol_to_match (line.drop (first_non_wild + 1))
          (wilds.drop (first_non_wild + 1)) with
      | none => none
      | some ext =>
        let sequence_length := 1 + ext
        let main_win := payLookupD pay_table (sequence_length + first_non_wild)
          symbol_to_match
        let wild_presence := check_wild_presence
          (line.take (sequence_length + first_non_wild)) wild_ids
        let code_01 := mkCode (sequence_length + first_non_wild) wild_presence
          symbol_to_match
        let wsMain := extract_winline_spinwin_data line_id code_01 main_win
        let mainRes := (main_win, code_01, wsMain.1, wsMain.2)
        if 2 ≤ first_non_wild then
          let first_symbol := line.getD 0 0
          let alt_win := payLookupD pay_table first_non_wild first_symbol
          if main_win < alt_win then
            let wild_presence2 := check_wild_presence (line.take first_non_wild)
              wild_ids
            let code_02 := mkCode first_non_wild wild_presence2 first_symbol
            let wsAlt := extract_winline_spinwin_data line_id code_02 alt_win
            some (alt_win, code_02, wsAlt.1, wsAlt.2)
          else some mainRes
        else some mainRes

/-! ## Helper lemmas -/

theorem natCharsAux_eq (fuel : Nat) : ∀ n, n ≤ fuel →
    natCharsAux fuel n =
      ((Nat.digits 10 n).map (fun d => Char.ofNat (d + 48))).reverse := by
  induction fuel with
  | zero =>
    intro n hn
    interval_cases n
    simp [natCharsAux]
  | succ f ih =>
    intro n hn
    cases n with
    | zero => simp [natCharsAux]
    | succ m =>
      have hdiv : (m + 1) / 10 < m + 1 :=
        Nat.div_lt_self (Nat.succ_pos m) (by norm_num)
      rw [show natCharsAux (f + 1) (m + 1) =
        natCharsAux f ((m + 1) / 10) ++ [Char.ofNat ((m + 1) % 10 + 48)]
        from rfl]
      rw [ih ((m + 1) / 10) (by omega)]
      rw [Nat.digits_def' (by norm_num : (1 : Nat) < 10) (Nat.succ_pos m)]
      simp

theorem natChars_eq (n : Nat) :
    natChars n = (if n = 0 then ['0']
      else ((Nat.digits 10 n).map (fun d => Char.ofNat (d + 48))).reverse) := by
  unfold natChars
  rcases eq_or_ne n 0 with rfl | hn
  · simp
  · rw [if_neg hn, if_neg hn, natCharsAux_eq n n le_rfl]

theorem splitOnDash_ne_nil (cs : List Char) : splitOnDash cs ≠ [] := by
  induction cs with
  | nil => simp [splitOnDash]
  | cons c cs ih =>
    simp only [splitOnDash]
    split
    · simp
    · cases h : splitOnDash cs with
      | nil => simp
      | cons p ps => simp

theorem splitOnDash_no_dash (xs : List Char) (h : ∀ c ∈ xs, c ≠ '-') :
    splitOnDash xs = [xs] := by
  induction xs with
  | nil => rfl
  | cons c cs ih =>
    have hc : c ≠ '-' := h c (List.mem_cons_self c cs)
    have hrest := ih (fun d hd => h d (List.mem_cons_of_mem c hd))
    simp only [splitOnDash, if_neg hc, hrest]

theorem splitOnDash_append (xs ys : List Char) (h : ∀ c ∈ xs, c ≠ '-') :
    splitOnDash (xs ++ '-' :: ys) = xs :: splitOnDash ys := by
  induction xs with
  | nil => simp [splitOnDash]
  | cons c cs ih =>
    have hc : c ≠ '-' := h c (List.mem_cons_self c cs)
    have hrest := ih (fun d hd => h d (List.mem_cons_of_mem c hd))
    show splitOnDash (c :: (cs ++ '-' :: ys)) = _
    simp only [splitOnDash, if_neg hc, hrest]

theorem digitVal_ofNat (d : Nat) (hd : d < 10) :
    digitVal (Char.ofNat (d + 48)) = some d := by
  interval_cases d <;> decide

theorem ofNat_digit_ne_dash (d : Nat) (hd : d < 10) :
    Char.ofNat (d + 48) ≠ '-' := by
  interval_cases d <;> decide

theorem ofNat_digit_ne_plus (d : Nat) (hd : d < 10) :
    Char.ofNat (d + 48) ≠ '+' := by
  interval_cases d <;> decide

theorem natChars_no_dash (n : Nat) : ∀ c ∈ natChars n, c ≠ '-' := by
  intro c hc
  rw [natChars_eq] at hc
  split at hc
  · simp at hc
    subst hc
    decide
  · simp only [List.mem_reverse, List.mem_map] at hc
    obtain ⟨d, hd, rfl⟩ := hc
    exact ofNat_digit_ne_dash d (Nat.digits_lt_base (by norm_num) hd)

theorem natChars_ne_nil (n : Nat) : natChars n ≠ [] := by
  rw [natChars_eq]
  split
  · simp
  · simp only [ne_eq, List.reverse_eq_nil_iff, List.map_eq_nil_iff]
    exact Nat.digits_ne_nil_iff_ne_zero.mpr (by assumption)

theorem parseDigitsAux_append (acc : Nat) (xs ys : List Char) :
    parseDigitsAux acc (xs ++ ys) =
      (parseDigitsAux acc xs).bind (fun a => parseDigitsAux a ys) := by
  induction xs generalizing acc with
  | nil => rfl
  | cons c cs ih =>
    simp only [List.cons_append, parseDigitsAux]
    cases digitVal c with
    | none => rfl
    | some d => exact ih (acc * 10 + d)

theorem parseDigitsAux_digits (L : List Nat) (acc : Nat)
    (hL : ∀ d ∈ L, d < 10) :
    parseDigitsAux acc ((L.map (fun d => Char.ofNat (d + 48))).reverse) =
      some (acc * 10 ^ L.length + Nat.ofDigits 10 L) := by
  induction L generalizing acc with
  | nil => simp [parseDigitsAux, Nat.ofDigits]
  | cons d L ih =>
    have hd : d < 10 := hL d (List.mem_cons_self d L)
    have hrest : ∀ e ∈ L, e < 10 := fun e he => hL e (List.mem_cons_of_mem d he)
    simp only [List.map_cons, List.reverse_cons, parseDigitsAux_append,
      ih acc hrest, Option.some_bind]
    simp only [parseDigitsAux, digitVal_ofNat d hd]
    congr 1
    simp only [Nat.ofDigits_cons, List.length_cons]
    ring

theorem parseDigits_natChars (n : Nat) : parseDigits (natChars n) = some n := by
  rw [natChars_eq]
  unfold parseDigits
  rcases eq_or_ne n 0 with rfl | hn
  · decide
  · rw [if_neg hn, if_neg (by simp [Nat.digits_ne_nil_iff_ne_zero.mpr hn,
      List.isEmpty_iff])]
    rw [parseDigitsAux_digits _ 0
      (fun d hd => Nat.digits_lt_base (by norm_num) hd)]
    simp [Nat.ofDigits_digits]

theorem natChars_head_digit (n : Nat) :
    ∃ d rest, d < 10 ∧ natChars n = Char.ofNat (d + 48) :: rest := by
  rw [natChars_eq]
  rcases eq_or_ne n 0 with rfl | hn
  · exact ⟨0, [], by norm_num, rfl⟩
  · rw [if_neg hn]
    have hne : (Nat.digits 10 n).reverse ≠ [] := by
      simp [Nat.digits_ne_nil_iff_ne_zero.mpr hn]
    cases h : (Nat.digits 10 n).reverse with
    | nil => exact absurd h hne
    | cons d ds =>
      refine ⟨d, ds.map (fun d => Char.ofNat (d + 48)), ?_, ?_⟩
      · exact Nat.digits_lt_base (by norm_num)
          (List.mem_reverse.mp (h ▸ List.mem_cons_self d ds))
      · rw [← List.map_reverse, h, List.map_cons]

theorem pyInt_natChars (n : Nat) : pyInt (natChars n) = some (n : Int) := by
  obtain ⟨d, rest, hd, heq⟩ := natChars_head_digit n
  rw [heq]
  simp only [pyInt, if_neg (ofNat_digit_ne_dash d hd),
    if_neg (ofNat_digit_ne_plus d hd)]
  rw [← heq, parseDigits_natChars]
  rfl

theorem splitOnDash_cons_dash (cs : List Char) :
    splitOnDash ('-' :: cs) = [] :: splitOnDash cs := by
  simp [splitOnDash]

theorem splitOnDash_cons_ne (c : Char) (cs : List Char) (hc : c ≠ '-')
    (p : List Char) (ps : List (List Char)) (h : splitOnDash cs = p :: ps) :
    splitOnDash (c :: cs) = (c :: p) :: ps := by
  simp [splitOnDash, if_neg hc, h]

theorem intChars_nonneg (s : Int) (hs : 0 ≤ s) :
    intChars s = natChars s.natAbs := by
  unfold intChars
  rw [if_neg (not_lt.mpr hs)]

theorem splitOnDash_mkCode (L f : Nat) (s : Int) (hs : 0 ≤ s) :
    splitOnDash (mkCode L f s).data =
      [['B'], natChars L, natChars f, natChars s.natAbs] := by
  have h2 : splitOnDash (intChars s) = [natChars s.natAbs] := by
    rw [intChars_nonneg s hs]
    exact splitOnDash_no_dash _ (natChars_no_dash _)
  have h1 : splitOnDash (natChars f ++ '-' :: intChars s)
      = natChars f :: [natChars s.natAbs] := by
    rw [splitOnDash_append _ _ (natChars_no_dash f), h2]
  have h3 : splitOnDash (natChars L ++ '-' :: (natChars f ++ '-' :: intChars s))
      = natChars L :: natChars f :: [natChars s.natAbs] := by
    rw [splitOnDash_append _ _ (natChars_no_dash L), h1]
  have h4 : splitOnDash
      ('-' :: (natChars L ++ '-' :: (natChars f ++ '-' :: intChars s)))
      = [] :: natChars L :: natChars f :: [natChars s.natAbs] := by
    rw [splitOnDash_cons_dash, h3]
  rw [show (mkCode L f s).data =
      'B' :: '-' :: (natChars L ++ '-' :: (natChars f ++ '-' :: intChars s))
      from rfl]
  rw [splitOnDash_cons_ne 'B' _ (by decide) _ _ h4]

theorem extract_mkCode (line_id : Int) (L f : Nat) (s : Int) (hs : 0 ≤ s)
    (amt : ℚ) :
    extract_winline_spinwin_data line_id (mkCode L f s) amt =
      (some ⟨line_id, (L : Int), s, amt⟩, [amt]) := by
  unfold extract_winline_spinwin_data
  simp only [splitOnDash_mkCode L f s hs]
  rw [show ([['B'], natChars L, natChars f,
    natChars s.natAbs].getD 1 []) = natChars L from rfl]
  rw [show ([['B'], natChars L, natChars f,
    natChars s.natAbs].getD 3 []) = natChars s.natAbs from rfl]
  rw [pyInt_natChars L, pyInt_natChars s.natAbs]
  simp [Int.natAbs_of_nonneg hs]

theorem firstNonWild_le (w : List Bool) (n p : Nat)
    (h : firstNonWild w n = some p) : p ≤ n := by
  induction w generalizing n p with
  | nil =>
    cases n with
    | zero =>
      rw [show firstNonWild [] 0 = some 0 from rfl] at h
      simp only [Option.some_inj] at h
      omega
    | succ m =>
      rw [show firstNonWild [] (m + 1) = none from rfl] at h
      exact absurd h (by simp)
  | cons b bs ih =>
    cases n with
    | zero =>
      rw [show firstNonWild (b :: bs) 0 = some 0 from rfl] at h
      simp only [Option.some_inj] at h
      omega
    | succ m =>
      rw [show firstNonWild (b :: bs) (m + 1) =
        (if b then (firstNonWild bs m).map (· + 1) else some 0) from rfl] at h
      split at h
      · cases hq : firstNonWild bs m with
        | none => rw [hq] at h; simp at h
        | some q =>
          rw [hq] at h
          simp only [Option.map_some', Option.some_inj] at h
          have := ih m q hq
          omega
      · simp only [Option.some_inj] at h
        omega

theorem firstNonWild_isSome (w : List Bool) (n : Nat) (h : n ≤ w.length) :
    ∃ p, firstNonWild w n = some p := by
  induction w generalizing n with
  | nil =>
    cases n with
    | zero => exact ⟨0, rfl⟩
    | succ m => simp at h
  | cons b bs ih =>
    cases n with
    | zero => exact ⟨0, rfl⟩
    | succ m =>
      simp only [firstNonWild]
      split
      · obtain ⟨p, hp⟩ := ih m (by simpa using h)
        exact ⟨p + 1, by rw [hp]; rfl⟩
      · exact ⟨0, rfl⟩

theorem firstNonWild_all_true (w : List Bool) (n : Nat) (hn : n ≤ w.length)
    (hw : ∀ b ∈ w, b = true) : firstNonWild w n = some n := by
  induction w generalizing n with
  | nil =>
    cases n with
    | zero => rfl
    | succ m => simp at hn
  | cons b bs ih =>
    cases n with
    | zero => rfl
    | succ m =>
      have hb : b = true := hw b (List.mem_cons_self b bs)
      simp only [firstNonWild, if_pos hb]
      rw [ih m (by simpa using hn) (fun x hx => hw x (List.mem_cons_of_mem b hx))]
      rfl

theorem seqExt_le (s : Int) (l : List Int) (w : List Bool) (e : Nat)
    (h : seqExt s l w = some e) : e ≤ l.length := by
  induction l generalizing w e with
  | nil =>
    rw [show seqExt s [] w = some 0 from rfl] at h
    simp only [Option.some_inj] at h
    omega
  | cons a as ih =>
    cases w with
    | nil =>
      rw [show seqExt s (a :: as) [] = none from rfl] at h
      exact absurd h (by simp)
    | cons b bs =>
      rw [show seqExt s (a :: as) (b :: bs) =
        (if b || a == s then (seqExt s as bs).map (· + 1) else some 0)
        from rfl] at h
      split at h
      · cases hq : seqExt s as bs with
        | none => rw [hq] at h; simp at h
        | some q =>
          rw [hq] at h
          simp only [Option.map_some', Option.some_inj] at h
          have := ih bs q hq
          simp only [List.length_cons]
          omega
      · simp only [Option.some_inj] at h
        omega

theorem seqExt_isSome (s : Int) (l : List Int) (w : List Bool)
    (h : l.length ≤ w.length) : ∃ e, seqExt s l w = some e := by
  induction l generalizing w with
  | nil => exact ⟨0, rfl⟩
  | cons a as ih =>
    cases w with
    | nil => simp at h
    | cons b bs =>
      simp only [seqExt]
      split
      · obtain ⟨e, he⟩ := ih bs (by simpa using h)
        exact ⟨e + 1, by rw [he]; rfl⟩
      · exact ⟨0, rfl⟩

theorem payLookupD_cases (pay_table : PayTable) (len : Nat) (symbol : Int) :
    payLookupD pay_table len symbol = 0 ∨
      payLookup pay_table len symbol = some (payLookupD pay_table len symbol) := by
  unfold payLookupD
  cases payLookup pay_table len symbol with
  | none => exact Or.inl rfl
  | some q => exact Or.inr rfl

/-- Unfolding of `check_win` in the non-all-wild case: with first
non-wild position `p` and run extension `ext`, the result is the
main/alternative comparison structure of the source. -/
theorem check_win_branch (line : List Int) (line_id : Int) (wilds : List Bool)
    (wild_ids : List Int) (pay_table : PayTable) (p ext : Nat)
    (hp : firstNonWild wilds line.length = some p)
    (hplt : p < line.length)
    (hext : seqExt (line.getD p 0) (line.drop (p + 1)) (wilds.drop (p + 1)) =
      some ext) :
    check_win line line_id wilds wild_ids pay_table =
      (let symbol_to_match := line.getD p 0
       let L := 1 + ext + p
       let main_win := payLookupD pay_table L symbol_to_match
       let mainCode := mkCode L (check_wild_presence (line.take L) wild_ids)
         symbol_to_match
       let wsMain := extract_winline_spinwin_data line_id mainCode main_win
       let mainRes := (main_win, mainCode, wsMain.1, wsMain.2)
       if 2 ≤ p then
         let first_symbol := line.getD 0 0
         let alt_win := payLookupD pay_table p first_symbol
         if main_win < alt_win then
           let altCode := mkCode p (check_wild_presence (line.take p) wild_ids)
             first_symbol
           let wsAlt := extract_winline_spinwin_data line_id altCode alt_win
           some (alt_win, altCode, wsAlt.1, wsAlt.2)
         else some mainRes
       else some mainRes) := by
  simp only [check_win]
  rw [hp]
  dsimp only
  rw [if_neg (Nat.ne_of_lt hplt)]
  rw [hext]

/-- Unfolding of `check_win` in the all-wild case: the whole line is one
run priced at `pay_table[N][line[0]]` with wild flag 1. -/
theorem check_win_allwild (s0 : Int) (rest : List Int) (line_id : Int)
    (wilds : List Bool) (wild_ids : List Int) (pay_table : PayTable)
    (hp : firstNonWild wilds (s0 :: rest).length =
      some (s0 :: rest).length) :
    check_win (s0 :: rest) line_id wilds wild_ids pay_table =
      (let N := (s0 :: rest).length
       let win := payLookupD pay_table N s0
       let code_01 := mkCode N 1 s0
       let ws := extract_winline_spinwin_data line_id code_01 win
       some (win, code_01, ws.1, ws.2)) := by
  simp only [check_win]
  rw [hp]
  dsimp only
  rw [if_pos rfl]

theorem getD_drop (l : List Int) (n i : Nat) (d : Int) :
    (l.drop n).getD i d = l.getD (n + i) d := by
  simp [List.getD, List.getElem?_drop]

theorem getD_drop_bool (l : List Bool) (n i : Nat) (d : Bool) :
    (l.drop n).getD i d = l.getD (n + i) d := by
  simp [List.getD, List.getElem?_drop]

/-- Positional reading of the run-extension loop: every counted
position is wild or matches the anchor, and the position the loop
stopped at (when inside the line) is neither. -/
theorem seqExt_spec (sym : Int) (l : List Int) (w : List Bool) (e : Nat)
    (h : seqExt sym l w = some e) :
    (∀ i, i < e → (w.getD i false = true ∨ l.getD i 0 = sym)) ∧
    (e < l.length → w.getD e false = false ∧ l.getD e 0 ≠ sym) := by
  induction l generalizing w e with
  | nil =>
    rw [show seqExt sym [] w = some 0 from rfl] at h
    simp only [Option.some_inj] at h
    subst h
    exact ⟨fun i hi => absurd hi (by omega), fun hlt => absurd hlt (by simp)⟩
  | cons a as ih =>
    cases w with
    | nil =>
      rw [show seqExt sym (a :: as) [] = none from rfl] at h
      exact absurd h (by simp)
    | cons b bs =>
      rw [show seqExt sym (a :: as) (b :: bs) =
        (if b || a == sym then (seqExt sym as bs).map (· + 1) else some 0)
        from rfl] at h
      split at h
      · rename_i hcond
        cases hq : seqExt sym as bs with
        | none => rw [hq] at h; simp at h
        | some q =>
          rw [hq] at h
          simp only [Option.map_some', Option.some_inj] at h
          subst h
          obtain ⟨ih1, ih2⟩ := ih bs q hq
          constructor
          · intro i hi
            cases i with
            | zero =>
              simp only [List.getD_cons_zero]
              rcases Bool.or_eq_true_iff.mp hcond with hb | ha
              · exact Or.inl hb
              · exact Or.inr (beq_iff_eq.mp ha)
            | succ j =>
              simp only [List.getD_cons_succ]
              exact ih1 j (by omega)
          · intro hlt
            simp only [List.getD_cons_succ]
            exact ih2 (by simpa using hlt)
      · rename_i hcond
        simp only [Option.some_inj] at h
        subst h
        constructor
        · intro i hi
          exact absurd hi (by omega)
        · intro _
          simp only [List.getD_cons_zero]
          constructor
          · exact Bool.eq_false_iff.mpr (fun hb => hcond (by simp [hb]))
          · intro ha
            exact hcond (by simp [ha])

/-- Every successful `check_win` result has the uniform shape: a win
amount that is the defaulted pay-table lookup at some match length `L`
and symbol `S`, the code `mkCode L flag S`, and the codec output for
that code and amount, with `1 ≤ L ≤ len(line)`. -/
theorem check_win_shape (line : List Int) (line_id : Int) (wilds : List Bool)
    (wild_ids : List Int) (pay_table : PayTable)
    (hne : line ≠ []) (hal : wilds.length = line.length) :
    ∃ L flag S, 1 ≤ L ∧ L ≤ line.length ∧
      check_win line line_id wilds wild_ids pay_table =
        some (payLookupD pay_table L S, mkCode L flag S,
          (extract_winline_spinwin_data line_id (mkCode L flag S)
            (payLookupD pay_table L S)).1,
          (extract_winline_spinwin_data line_id (mkCode L flag S)
            (payLookupD pay_table L S)).2) := by
  obtain ⟨s0, rest, rfl⟩ := List.exists_cons_of_ne_nil hne
  obtain ⟨p, hp⟩ := firstNonWild_isSome wilds (s0 :: rest).length
    (le_of_eq hal.symm)
  have hple := firstNonWild_le wilds (s0 :: rest).length p hp
  by_cases hpl : p = (s0 :: rest).length
  · refine ⟨(s0 :: rest).length, 1, s0, by simp, le_refl _, ?_⟩
    exact check_win_allwild s0 rest line_id wilds wild_ids pay_table
      (hpl ▸ hp)
  · have hplt : p < (s0 :: rest).length := lt_of_le_of_ne hple hpl
    obtain ⟨ext, hext⟩ := seqExt_isSome ((s0 :: rest).getD p 0)
      ((s0 :: rest).drop (p + 1)) (wilds.drop (p + 1)) (by simp [hal])
    have hdle : ext ≤ ((s0 :: rest).drop (p + 1)).length :=
      seqExt_le _ _ _ _ hext
    rw [List.length_drop] at hdle
    rw [check_win_branch (s0 :: rest) line_id wilds wild_ids pay_table p ext
      hp hplt hext]
    dsimp only
    by_cases h2p : 2 ≤ p
    · rw [if_pos h2p]
      by_cases hlt : payLookupD pay_table (1 + ext + p) ((s0 :: rest).getD p 0) <
          payLookupD pay_table p ((s0 :: rest).getD 0 0)
      · rw [if_pos hlt]
        exact ⟨p, check_wild_presence ((s0 :: rest).take p) wild_ids,
          (s0 :: rest).getD 0 0, by omega, by omega, rfl⟩
      · rw [if_neg hlt]
        exact ⟨1 + ext + p,
          check_wild_presence ((s0 :: rest).take (1 + ext + p)) wild_ids,
          (s0 :: rest).getD p 0, by omega, by omega, rfl⟩
    · rw [if_neg h2p]
      exact ⟨1 + ext + p,
        check_wild_presence ((s0 :: rest).take (1 + ext + p)) wild_ids,
        (s0 :: rest).getD p 0, by omega, by omega, rfl⟩

/-! ## Claim theorems -/

/-- C5: for every winline id, code string and win amount,
`extract_winline_spinwin_data` returns (it never throws past its
boundary), `spinWins` always equals the one-element list `[win_amount]`,
and the winline record is empty exactly when the code splits on `'-'`
into fewer than 4 parts or part index 1 or part index 3 fails integer
parsing. -/
theorem c5_codec_degrades (winline_id : Int) (code : String)
    (win_amount : ℚ) :
    (extract_winline_spinwin_data winline_id code win_amount).2 =
      [win_amount] ∧
    ((extract_winline_spinwin_data winline_id code win_amount).1 = none ↔
      ((splitOnDash code.data).length < 4 ∨
        pyInt ((splitOnDash code.data).getD 1 []) = none ∨
        pyInt ((splitOnDash code.data).getD 3 []) = none)) := by
  refine ⟨rfl, ?_⟩
  unfold extract_winline_spinwin_data
  dsimp only
  by_cases h4 : (splitOnDash code.data).length < 4
  · simp [h4]
  · rw [if_neg h4]
    cases h1 : pyInt ((splitOnDash code.data).getD 1 []) with
    | none => simp [h4, h1]
    | some c =>
      cases h3 : pyInt ((splitOnDash code.data).getD 3 []) with
      | none => simp [h4, h1, h3]
      | some s => simp [h4, h1, h3]

/-- C6: with at least 4 dash-separated parts and integer parts at
indices 1 and 3, `extract_winline_spinwin_data` returns the record
`[winline_id, matchLength, symbol, win_amount]`; widths are not fixed
("02" and "2" both parse to 2) and trailing segments (a multiplier) are
accepted. -/
theorem c6_codec_success (winline_id : Int) (code : String)
    (win_amount : ℚ) (combination_count symbol_id : Int)
    (h4 : ¬ (splitOnDash code.data).length < 4)
    (h1 : pyInt ((splitOnDash code.data).getD 1 []) =
      some combination_count)
    (h3 : pyInt ((splitOnDash code.data).getD 3 []) = some symbol_id) :
    extract_winline_spinwin_data winline_id code win_amount =
      (some ⟨winline_id, combination_count, symbol_id, win_amount⟩,
        [win_amount]) ∧
    pyInt "02".data = some 2 ∧ pyInt "2".data = some 2 := by
  refine ⟨?_, by decide, by decide⟩
  unfold extract_winline_spinwin_data
  dsimp only
  rw [if_neg h4, h1, h3]

/-- C6 witness: `decodeResultCode(1, "B-3-0-02-1", 50.0)` yields the
record with matchLength 3 and symbol 2 (from the non-fixed-width "02"),
with the trailing multiplier segment accepted. -/
theorem c6_codec_success_witness :
    extract_winline_spinwin_data 1 "B-3-0-02-1" 50 =
      (some ⟨1, 3, 2, 50⟩, [50]) ∧
    pyInt "02".data = some 2 ∧ pyInt "2".data = some 2 :=
  c6_codec_success 1 "B-3-0-02-1" 50 3 2 (by decide) (by decide) (by decide)

/-- C8: `check_wild_presence` equals 1 exactly when some element of
`check_wild_symbols` is true and 0 otherwise; an empty line or empty
wild-id list yields 0. -/
theorem c8_wild_predicates_consistent (line : List Int)
    (wild_ids : List Int) :
    (check_wild_presence line wild_ids = 1 ↔
      (check_wild_symbols line wild_ids).any (fun b => b) = true) ∧
    (check_wild_presence line wild_ids = 0 ↔
      ¬ (check_wild_symbols line wild_ids).any (fun b => b) = true) ∧
    check_wild_presence [] wild_ids = 0 ∧
    check_wild_presence line [] = 0 := by
  have hmap : (check_wild_symbols line wild_ids).any (fun b => b) =
      line.any (fun symbol => wild_ids.contains symbol) := by
    unfold check_wild_symbols
    induction line with
    | nil => rfl
    | cons a l ih => simp only [List.map_cons, List.any_cons, ih]
  refine ⟨?_, ?_, rfl, ?_⟩
  · rw [hmap]
    unfold check_wild_presence
    split <;> simp_all
  · rw [hmap]
    unfold check_wild_presence
    split <;> simp_all
  · simp [check_wild_presence, List.contains]

/-- C9: `extract_game_detail` returns exactly the ticket with the given
total win, trigger type, row-major flattened board, and unchanged
spin-wins list; the winlines argument does not influence any output
field. -/
theorem c9_game_ticket (α β : Type) (total_win : ℚ) (trigger_type : String)
    (matrix : List (List α)) (winlines winlines' : β)
    (spin_wins : List ℚ) :
    extract_game_detail total_win trigger_type matrix winlines spin_wins =
      { win := total_win, triggerType := trigger_type,
        reels := matrix.flatten, spinWins := spin_wins } ∧
    extract_game_detail total_win trigger_type matrix winlines spin_wins =
      extract_game_detail total_win trigger_type matrix winlines'
        spin_wins :=
  ⟨rfl, rfl⟩

/-- C4: on a non-empty line whose aligned wild mask is true at every
position, `check_win` returns the all-wild result: amount
`pay_table[N][line[0]]` defaulted to 0 and code `"B-{N}-1-{line[0]}"`
(the alternative-candidate comparison is never reached: the result is
exactly the all-wild branch value). -/
theorem c4_all_wild (s0 : Int) (rest : List Int) (line_id : Int)
    (wilds : List Bool) (wild_ids : List Int) (pay_table : PayTable)
    (hal : wilds.length = (s0 :: rest).length)
    (hw : ∀ b ∈ wilds, b = true) :
    check_win (s0 :: rest) line_id wilds wild_ids pay_table =
      some (payLookupD pay_table (s0 :: rest).length s0,
        mkCode (s0 :: rest).length 1 s0,
        (extract_winline_spinwin_data line_id
          (mkCode (s0 :: rest).length 1 s0)
          (payLookupD pay_table (s0 :: rest).length s0)).1,
        (extract_winline_spinwin_data line_id
          (mkCode (s0 :: rest).length 1 s0)
          (payLookupD pay_table (s0 :: rest).length s0)).2) := by
  have hp := firstNonWild_all_true wilds (s0 :: rest).length
    (le_of_eq hal.symm) hw
  exact check_win_allwild s0 rest line_id wilds wild_ids pay_table hp

/-- C4 witness: line `[5,5,5,5,5]`, wild ids `[5]`, pay table
`5:{5:250}` yields amount 250 and code `"B-5-1-5"`. -/
theorem c4_all_wild_witness :
    check_win [5, 5, 5, 5, 5] 1 (check_wild_symbols [5, 5, 5, 5, 5] [5])
      [5] [(5, [(5, 250)])] =
      some (250, "B-5-1-5", some ⟨1, 5, 5, 250⟩, [250]) := by
  have h := c4_all_wild 5 [5, 5, 5, 5] 1
    (check_wild_symbols [5, 5, 5, 5, 5] [5]) [5] [(5, [(5, 250)])]
    (by decide) (by decide)
  rw [h]
  decide

/-- C2 counterexample: on the empty line with empty aligned mask,
`check_win` does not return a result: the Python source reaches
`line[0]` outside any `try` and raises `IndexError` (modelled as
`none`), contradicting the claim that every input has a defined
output. -/
theorem c2_empty_line_counterexample :
    check_win [] 0 [] [] [] = none := by decide

/-- C2 (amended): `check_win` completes and returns a result for every
NON-EMPTY line with an aligned wild mask; the empty line is the one
input on which it raises. -/
theorem c2_total_on_nonempty (line : List Int) (line_id : Int)
    (wilds : List Bool) (wild_ids : List Int) (pay_table : PayTable)
    (hne : line ≠ []) (hal : wilds.length = line.length) :
    (check_win line line_id wilds wild_ids pay_table).isSome = true := by
  obtain ⟨L, flag, S, _, _, heq⟩ := check_win_shape line line_id wilds
    wild_ids pay_table hne hal
  rw [heq]
  rfl

/-- C2 witness: a concrete non-empty line returns a result. -/
theorem c2_total_on_nonempty_witness :
    (check_win [2, 2, 2, 1, 3] 1 [false, false, false, false, false] [5]
      []).isSome = true :=
  c2_total_on_nonempty [2, 2, 2, 1, 3] 1
    [false, false, false, false, false] [5] [] (by decide) (by decide)

/-- C10: every successful `check_win` result on a non-empty line with
aligned mask returns an amount that is either 0 or exactly the
pay-table entry `pay_table[L][S]` for the match length `L` and symbol
`S` embedded in the returned code `"B-{L}-{flag}-{S}"`, with
`1 ≤ L ≤ len(line)`, uniformly across the all-wild, main and
alternative branches. -/
theorem c10_amount_code_invariant (line : List Int) (line_id : Int)
    (wilds : List Bool) (wild_ids : List Int) (pay_table : PayTable)
    (hne : line ≠ []) (hal : wilds.length = line.length) :
    ∃ L flag S,
      1 ≤ L ∧ L ≤ line.length ∧
      check_win line line_id wilds wild_ids pay_table =
        some (payLookupD pay_table L S, mkCode L flag S,
          (extract_winline_spinwin_data line_id (mkCode L flag S)
            (payLookupD pay_table L S)).1,
          (extract_winline_spinwin_data line_id (mkCode L flag S)
            (payLookupD pay_table L S)).2) ∧
      (payLookupD pay_table L S = 0 ∨
        payLookup pay_table L S = some (payLookupD pay_table L S)) := by
  obtain ⟨L, flag, S, h1, h2, heq⟩ := check_win_shape line line_id wilds
    wild_ids pay_table hne hal
  exact ⟨L, flag, S, h1, h2, heq, payLookupD_cases pay_table L S⟩

/-- C10 witness: the invariant instantiated on a concrete line. -/
theorem c10_amount_code_invariant_witness :
    ∃ L flag S,
      1 ≤ L ∧ L ≤ ([2, 2, 2, 1, 3] : List Int).length ∧
      check_win [2, 2, 2, 1, 3] 1 [false, false, false, false, false] [5]
        [(3, [(2, 30)])] =
        some (payLookupD [(3, [(2, 30)])] L S, mkCode L flag S,
          (extract_winline_spinwin_data 1 (mkCode L flag S)
            (payLookupD [(3, [(2, 30)])] L S)).1,
          (extract_winline_spinwin_data 1 (mkCode L flag S)
            (payLookupD [(3, [(2, 30)])] L S)).2) ∧
      (payLookupD [(3, [(2, 30)])] L S = 0 ∨
        payLookup [(3, [(2, 30)])] L S =
          some (payLookupD [(3, [(2, 30)])] L S)) :=
  c10_amount_code_invariant [2, 2, 2, 1, 3] 1
    [false, false, false, false, false] [5] [(3, [(2, 30)])]
    (by decide) (by decide)

/-- C1: when the first non-wild position `p` satisfies `p ≥ 2`,
`check_win` compares the alternative candidate
`altWin = pay_table[p][line[0]]` (defaulted to 0) against the main
candidate and returns the alternative result (with wild flag over
`[0, p)`) exactly when `altWin > mainWin`, otherwise the main result;
the returned amount is the higher of the two candidates. -/
theorem c1_alternative_candidate (line : List Int) (line_id : Int)
    (wilds : List Bool) (wild_ids : List Int) (pay_table : PayTable)
    (p ext : Nat)
    (hp : firstNonWild wilds line.length = some p)
    (hp2 : 2 ≤ p)
    (hplt : p < line.length)
    (hext : seqExt (line.getD p 0) (line.drop (p + 1)) (wilds.drop (p + 1)) =
      some ext) :
    let S := line.getD p 0
    let F := line.getD 0 0
    let mainWin := payLookupD pay_table (1 + ext + p) S
    let altWin := payLookupD pay_table p F
    let mainCode := mkCode (1 + ext + p)
      (check_wild_presence (line.take (1 + ext + p)) wild_ids) S
    let altCode := mkCode p (check_wild_presence (line.take p) wild_ids) F
    (mainWin < altWin →
      check_win line line_id wilds wild_ids pay_table =
        some (altWin, altCode,
          (extract_winline_spinwin_data line_id altCode altWin).1,
          (extract_winline_spinwin_data line_id altCode altWin).2)) ∧
    (¬ mainWin < altWin →
      check_win line line_id wilds wild_ids pay_table =
        some (mainWin, mainCode,
          (extract_winline_spinwin_data line_id mainCode mainWin).1,
          (extract_winline_spinwin_data line_id mainCode mainWin).2)) ∧
    ∃ c wl sw, check_win line line_id wilds wild_ids pay_table =
      some (max mainWin altWin, c, wl, sw) := by
  dsimp only
  rw [check_win_branch line line_id wilds wild_ids pay_table p ext hp hplt
    hext]
  dsimp only
  rw [if_pos hp2]
  refine ⟨fun hlt => by rw [if_pos hlt], fun hge => by rw [if_neg hge], ?_⟩
  by_cases hlt : payLookupD pay_table (1 + ext + p) (line.getD p 0) <
      payLookupD pay_table p (line.getD 0 0)
  · rw [if_pos hlt, max_eq_right hlt.le]
    exact ⟨_, _, _, rfl⟩
  · rw [if_neg hlt, max_eq_left (not_lt.mp hlt)]
    exact ⟨_, _, _, rfl⟩

/-- C1 witness: `line=[5,5,3,2,1]`, mask `[T,T,F,F,F]`, wild ids `[5]`,
pay table `{2:{5:25}, 3:{3:40}}`: the main candidate (40) is not beaten
by the alternative (25), so the main result `40, "B-3-1-3"` is
returned — the higher of the two candidates. -/
theorem c1_alternative_candidate_witness :
    check_win [5, 5, 3, 2, 1] 4 [true, true, false, false, false] [5]
      [(2, [(5, 25)]), (3, [(3, 40)])] =
      some (40, "B-3-1-3", some ⟨4, 3, 3, 40⟩, [40]) := by
  have h := c1_alternative_candidate [5, 5, 3, 2, 1] 4
    [true, true, false, false, false] [5] [(2, [(5, 25)]), (3, [(3, 40)])]
    2 0 (by decide) (by decide) (by decide) (by decide)
  rw [h.2.1 (by decide)]
  decide

/-- C3: with first non-wild position `p` and run extension `ext`, when
the alternative candidate does not apply (`p < 2`) or does not exceed
the main candidate, `check_win` returns the main candidate: run length
`runLen = 1 + ext ≥ 1`, amount `pay_table[runLen+p][line[p]]` defaulted
to 0, code `"B-{runLen+p}-{flag}-{line[p]}"` with flag 1 iff some
position in `[0, runLen+p)` holds a wild id; the run includes each
position after `p` that is wild or equal to the anchor and stops at the
first that is neither. -/
theorem c3_main_candidate (line : List Int) (line_id : Int)
    (wilds : List Bool) (wild_ids : List Int) (pay_table : PayTable)
    (p ext : Nat)
    (hp : firstNonWild wilds line.length = some p)
    (hplt : p < line.length)
    (hext : seqExt (line.getD p 0) (line.drop (p + 1)) (wilds.drop (p + 1)) =
      some ext)
    (hno : p < 2 ∨ payLookupD pay_table p (line.getD 0 0) ≤
      payLookupD pay_table (1 + ext + p) (line.getD p 0)) :
    1 ≤ 1 + ext ∧
    check_win line line_id wilds wild_ids pay_table =
      some (payLookupD pay_table (1 + ext + p) (line.getD p 0),
        mkCode (1 + ext + p)
          (check_wild_presence (line.take (1 + ext + p)) wild_ids)
          (line.getD p 0),
        (extract_winline_spinwin_data line_id
          (mkCode (1 + ext + p)
            (check_wild_presence (line.take (1 + ext + p)) wild_ids)
            (line.getD p 0))
          (payLookupD pay_table (1 + ext + p) (line.getD p 0))).1,
        (extract_winline_spinwin_data line_id
          (mkCode (1 + ext + p)
            (check_wild_presence (line.take (1 + ext + p)) wild_ids)
            (line.getD p 0))
          (payLookupD pay_table (1 + ext + p) (line.getD p 0))).2) ∧
    (check_wild_presence (line.take (1 + ext + p)) wild_ids = 1 ↔
      ∃ s ∈ line.take (1 + ext + p), s ∈ wild_ids) ∧
    (∀ i, i < ext →
      (wilds.getD (p + 1 + i) false = true ∨
        line.getD (p + 1 + i) 0 = line.getD p 0)) ∧
    (p + 1 + ext < line.length →
      wilds.getD (p + 1 + ext) false = false ∧
        line.getD (p + 1 + ext) 0 ≠ line.getD p 0) := by
  obtain ⟨hfwd, hstop⟩ := seqExt_spec (line.getD p 0) (line.drop (p + 1))
    (wilds.drop (p + 1)) ext hext
  refine ⟨by omega, ?_, ?_, ?_, ?_⟩
  · rw [check_win_branch line line_id wilds wild_ids pay_table p ext hp hplt
      hext]
    dsimp only
    by_cases h2p : 2 ≤ p
    · rw [if_pos h2p]
      have hge : ¬ payLookupD pay_table (1 + ext + p) (line.getD p 0) <
          payLookupD pay_table p (line.getD 0 0) := by
        rcases hno with h | h
        · omega
        · exact not_lt.mpr h
      rw [if_neg hge]
    · rw [if_neg h2p]
  · unfold check_wild_presence
    by_cases hany :
        (line.take (1 + ext + p)).any (fun symbol => wild_ids.contains symbol)
    · rw [if_pos hany]
      have hex : ∃ s ∈ line.take (1 + ext + p), s ∈ wild_ids := by
        simpa [List.contains] using hany
      exact ⟨fun _ => hex, fun _ => rfl⟩
    · rw [if_neg hany]
      have hnex : ¬ ∃ s ∈ line.take (1 + ext + p), s ∈ wild_ids := by
        simpa [List.contains] using hany
      exact ⟨fun h => absurd h (by omega), fun h => absurd h hnex⟩
  · intro i hi
    have := hfwd i hi
    rwa [getD_drop_bool, getD_drop] at this
  · intro hlt
    have hlen : ext < (line.drop (p + 1)).length := by
      rw [List.length_drop]
      omega
    have := hstop hlen
    rwa [getD_drop_bool, getD_drop] at this

/-- C3 witness: `line=[2,2,2,1,3]`, all-false mask, wild ids `[5]`,
scenario-1 pay table: anchor at `p = 0`, run `[2,2,2]` of length 3,
amount 30, code `"B-3-0-2"`. -/
theorem c3_main_candidate_witness :
    check_win [2, 2, 2, 1, 3] 1 [false, false, false, false, false] [5]
      [(2, [(1, 10), (2, 15), (3, 20), (5, 25)]),
        (3, [(1, 20), (2, 30), (3, 40), (5, 50)])] =
      some (30, "B-3-0-2", some ⟨1, 3, 2, 30⟩, [30]) := by
  have h := c3_main_candidate [2, 2, 2, 1, 3] 1
    [false, false, false, false, false] [5]
    [(2, [(1, 10), (2, 15), (3, 20), (5, 25)]),
      (3, [(1, 20), (2, 30), (3, 40), (5, 50)])]
    0 2 (by decide) (by decide) (by decide) (Or.inl (by decide))
  rw [h.2.1]
  decide

/-- C7 counterexample: on line `[-1]` (mask `[false]`, no wilds, empty
pay table) the evaluator selects match length 1 and anchor symbol `-1`
and emits code `"B-1-0--1"`; feeding that code back into the codec
fails to parse (the symbol's minus sign adds a fifth, empty segment at
index 3), yielding an empty record instead of one whose matchLength and
symbol match the evaluator's selection. -/
theorem c7_roundtrip_counterexample :
    check_win [-1] 1 [false] [] [] = some (0, "B-1-0--1", none, [0]) ∧
    (extract_winline_spinwin_data 1 "B-1-0--1" 0).1 = none := by decide

/-- C7 (amended): for every non-empty line with aligned mask, the code
`"B-{L}-{flag}-{S}"` produced by `check_win`, fed back into
`extract_winline_spinwin_data` with the same line id and amount, yields
a winline record whose matchLength and symbol equal the evaluator's
selected `L` and `S` — provided the selected anchor symbol `S` is
nonnegative (a negative symbol's minus sign corrupts the code's
segmentation). -/
theorem c7_roundtrip (line : List Int) (line_id : Int) (wilds : List Bool)
    (wild_ids : List Int) (pay_table : PayTable)
    (hne : line ≠ []) (hal : wilds.length = line.length) :
    ∃ L flag S amt,
      check_win line line_id wilds wild_ids pay_table =
        some (amt, mkCode L flag S,
          (extract_winline_spinwin_data line_id (mkCode L flag S) amt).1,
          (extract_winline_spinwin_data line_id (mkCode L flag S) amt).2) ∧
      (0 ≤ S →
        (extract_winline_spinwin_data line_id (mkCode L flag S) amt).1 =
          some ⟨line_id, (L : Int), S, amt⟩) := by
  obtain ⟨L, flag, S, _, _, heq⟩ := check_win_shape line line_id wilds
    wild_ids pay_table hne hal
  refine ⟨L, flag, S, payLookupD pay_table L S, heq, fun hS => ?_⟩
  rw [extract_mkCode line_id L flag S hS (payLookupD pay_table L S)]

/-- C7 witness: the round-trip property instantiated on a concrete
line. -/
theorem c7_roundtrip_witness :
    ∃ L flag S amt,
      check_win [2, 2, 2, 1, 3] 1 [false, false, false, false, false] [5]
        [(3, [(2, 30)])] =
        some (amt, mkCode L flag S,
          (extract_winline_spinwin_data 1 (mkCode L flag S) amt).1,
          (extract_winline_spinwin_data 1 (mkCode L flag S) amt).2) ∧
      (0 ≤ S →
        (extract_winline_spinwin_data 1 (mkCode L flag S) amt).1 =
          some ⟨1, (L : Int), S, amt⟩) :=
  c7_roundtrip [2, 2, 2, 1, 3] 1 [false, false, false, false, false] [5]
    [(3, [(2, 30)])] (by decide) (by decide)
